import Mathlib

/-!
Shallow embedding of the interval scheduling engine of `src/src/App.tsx`
(a React day-scheduler).  Slot indices and interval endpoints are JS
numbers that stay small integers, embedded as `Int`.  The field `end` of
`EventBlock` is renamed `endSlot` because `end` is a Lean keyword; all
other names follow the source.
-/

namespace Scheduler

/-- `EventBlock` from App.tsx: inclusive slot range plus a title. -/
structure EventBlock where
  start : Int
  endSlot : Int
  title : String
deriving DecidableEq, Repr

/-- Configuration constants from App.tsx. -/
def ROWS : Nat := 3

def START_HOUR : Int := 9

def END_HOUR : Int := 20

def SLOTS_PER_HOUR : Int := 4

/-- `TOTAL_SLOTS = (END_HOUR - START_HOUR) * SLOTS_PER_HOUR = 44`. -/
def TOTAL_SLOTS : Int := (END_HOUR - START_HOUR) * SLOTS_PER_HOUR

/-- JS `String.prototype.trim()`: strip whitespace from both ends.
(App.tsx calls `title.trim()`.) -/
def trimStr (s : String) : String :=
  ⟨((s.data.dropWhile Char.isWhitespace).reverse.dropWhile Char.isWhitespace).reverse⟩

/-- `isValidEventBlock` (App.tsx lines 37-43).  The `typeof` and
`Number.isInteger` checks are type-level facts in the embedding. -/
def isValidEventBlock (ev : EventBlock) : Bool :=
  if ev.start < 0 || ev.endSlot < 0 || ev.start > ev.endSlot then false
  else if ev.endSlot > TOTAL_SLOTS - 1 then false
  else true

/-- The comparison key used by `validateRows` when sorting each row:
JS `sort((a, b) => a.start - b.start)`, a stable sort by `start`. -/
def leStart (a b : EventBlock) : Prop := a.start ≤ b.start

instance : DecidableRel leStart := fun a b => inferInstanceAs (Decidable (a.start ≤ b.start))

instance : IsTotal EventBlock leStart := ⟨fun a b => Int.le_total a.start b.start⟩

instance : IsTrans EventBlock leStart := ⟨fun _ _ _ h h' => Int.le_trans h h'⟩

/-- JS `Array.prototype.sort` is stable; insertion sort is the matching
stable sort by `start`. -/
def sortByStart (row : List EventBlock) : List EventBlock :=
  row.insertionSort leStart

/-- The per-consecutive-pair check of `validateRows` (lines 92-94):
if `prev.end >= cur.start` then `prev.end` must equal `cur.start - 1`. -/
def adjOk (prev cur : EventBlock) : Bool :=
  if prev.endSlot ≥ cur.start then prev.endSlot == cur.start - 1 else true

/-- The inner loop of `validateRows` over a sorted row. -/
def pairsOk : List EventBlock → Bool
  | [] => true
  | [_] => true
  | a :: b :: rest => adjOk a b && pairsOk (b :: rest)

/-- `validateRows` (App.tsx lines 78-98): row count, per-block validity,
then the sorted consecutive-overlap check. -/
def validateRows (rows : List (List EventBlock)) : Bool :=
  (rows.length == ROWS)
    && rows.all (fun row => row.all isValidEventBlock)
    && rows.all (fun row => pairsOk (sortByStart row))

/-- The persisted schedule shape (`ScheduleV1`); `version` is kept as an
arbitrary integer because `loadFromStorage` inspects untrusted data. -/
structure ScheduleV1 where
  version : Int
  savedAt : String
  rows : List (List EventBlock)
deriving DecidableEq, Repr

/-- `makeSchedule` (lines 100-106); the `new Date().toISOString()`
timestamp is an external input, passed as the `savedAt` parameter. -/
def makeSchedule (savedAt : String) (rows : List (List EventBlock)) : ScheduleV1 :=
  { version := 1, savedAt := savedAt, rows := rows }

/-- `loadFromStorage` (lines 117-128), with the storage read and JSON
parse treated as external: the input is the already-parsed payload
(`none` models an absent key or a parse failure). -/
def loadFromStorage (parsed : Option ScheduleV1) : Option ScheduleV1 :=
  match parsed with
  | none => none
  | some p =>
    if p.version ≠ 1 then none
    else if !validateRows p.rows then none
    else some p

/-- The import path (`handleImportFile`, lines 463-487) applied to state:
a payload that fails the version check or `validateRows` leaves the
current rows untouched. -/
def importRows (current : List (List EventBlock)) (p : ScheduleV1) :
    List (List EventBlock) :=
  match loadFromStorage (some p) with
  | some q => q.rows
  | none => current

/-- `clamp` (lines 231-233): `Math.max(min, Math.min(max, val))`. -/
def clamp (val min' max' : Int) : Int := max min' (min max' val)

/-- `rangeOverlaps` (lines 235-237). -/
def rangeOverlaps (aStart aEnd bStart bEnd : Int) : Bool :=
  decide (aStart ≤ bEnd ∧ bStart ≤ aEnd)

/-- One iteration of the `for (const o of others)` loop in
`allowedRangeFor` (lines 244-253), threading the mutable `(s, e)`. -/
def snapOne (p : Int × Int) (o : EventBlock) : Int × Int :=
  if rangeOverlaps p.1 p.2 o.start o.endSlot then
    if p.2 ≥ o.start ∧ p.1 ≤ o.start then (p.1, o.start - 1)
    else if p.1 ≤ o.endSlot ∧ p.2 ≥ o.endSlot then (o.endSlot + 1, p.2)
    else p
  else p

/-- The entry normalization of `allowedRangeFor` (lines 240-242):
clamp both endpoints, then swap if inverted. -/
def normalizePair (s e : Int) : Int × Int :=
  let s' := clamp s 0 (TOTAL_SLOTS - 1)
  let e' := clamp e 0 (TOTAL_SLOTS - 1)
  if s' > e' then (e', s') else (s', e')

/-- The exit normalization of `allowedRangeFor` (lines 254-257):
re-clamp, then collapse `s > e` to the single point `(e, e)`. -/
def finalizePair (p : Int × Int) : Int × Int :=
  let s := clamp p.1 0 (TOTAL_SLOTS - 1)
  let e := clamp p.2 0 (TOTAL_SLOTS - 1)
  if s > e then (e, e) else (s, e)

/-- `allowedRangeFor` (lines 239-258) on the already-filtered `others`
list. -/
def allowedRangeFor (others : List EventBlock) (s e : Int) : Int × Int :=
  finalizePair (others.foldl snapOne (normalizePair s e))

/-- `events[rowIdx].filter((_, i) => i !== excludeIndex)` (line 243);
`excludeIndex` is `null` (`none`) for interval creation. -/
def filterExclude (exclude : Option Nat) : Nat → List EventBlock → List EventBlock
  | _, [] => []
  | i, o :: rest =>
    if some i = exclude then filterExclude exclude (i + 1) rest
    else o :: filterExclude exclude (i + 1) rest

/-- The non-excluded intervals of a row. -/
def othersOf (row : List EventBlock) (exclude : Option Nat) : List EventBlock :=
  filterExclude exclude 0 row

/-- `allowedRangeFor` as called in App.tsx: the collision resolver
`resolve(row, excludeIndex, s, e)` of the spec. -/
def resolveRange (row : List EventBlock) (exclude : Option Nat) (s e : Int) : Int × Int :=
  allowedRangeFor (othersOf row exclude) s e

/-- `DragMode` (line 10). -/
inductive DragMode where
  | none
  | create
  | move
  | resizeLeft
  | resizeRight
deriving DecidableEq, Repr

/-- The mode classification of `onMouseDownCell` (lines 265-274). -/
def classifyDrag (evt : EventBlock) (slotIdx : Int) : DragMode :=
  if evt.start == evt.endSlot then DragMode.move
  else if slotIdx == evt.start then DragMode.resizeLeft
  else if slotIdx == evt.endSlot then DragMode.resizeRight
  else DragMode.move

/-- `DragState` (lines 12-19); nullable fields become `Option`. -/
structure DragState where
  mode : DragMode
  row : Option Nat
  eventIndex : Option Nat
  anchorSlot : Option Int
  initialStart : Option Int
  initialEnd : Option Int
deriving DecidableEq, Repr

/-- `findEventAt` (lines 226-229). -/
def findEventAt (row : List EventBlock) (slotIdx : Int) : Option Nat :=
  row.findIdx? (fun ev => decide (slotIdx ≥ ev.start) && decide (slotIdx ≤ ev.endSlot))

/-- The drag-starting branch of `onMouseDownCell` (lines 260-284): on an
occupied slot, classify and record the snapshot; on an empty slot no drag
state is created (the create-selection branch starts instead).  The inner
`none` case is unreachable: `findIdx?` only returns in-range indices. -/
def onMouseDownDrag (row : List EventBlock) (rowIdx : Nat) (slotIdx : Int) :
    Option DragState :=
  match findEventAt row slotIdx with
  | some i =>
    match row.get? i with
    | some evt =>
      some { mode := classifyDrag evt slotIdx
             row := some rowIdx
             eventIndex := some i
             anchorSlot := some slotIdx
             initialStart := some evt.start
             initialEnd := some evt.endSlot }
    | none => none
  | none => none

/-- `applyTempUpdate` restricted to one row (lines 331-340): overwrite
`start`/`end` of the event at `eventIdx`, keeping its title.  The index
always comes from `findEventAt`, hence is in range; out of range the row
is returned unchanged. -/
def rowUpdate (row : List EventBlock) (eventIdx : Nat) (s e : Int) : List EventBlock :=
  match row.get? eventIdx with
  | some original => row.set eventIdx { original with start := s, endSlot := e }
  | none => row

/-- The committed mutations of the Row Collection: new-event creation on
pointer-up (`handleMouseUp`, lines 171-195) and the incremental
move/resize write-backs of `onMouseEnterCell` (lines 293-329).  Each
constructor carries the gesture-snapshot fields the handler reads. -/
inductive Mutation where
  | create (r : Nat) (selectStart selectCurrent : Int) (title : String)
  | moveTo (r idx : Nat) (initialStart initialEnd anchorSlot slotIdx : Int)
  | resizeL (r idx : Nat) (initialEnd slotIdx : Int)
  | resizeR (r idx : Nat) (initialStart slotIdx : Int)

/-- Apply one committed mutation to the rows, exactly as the handlers do. -/
def applyMutation (rows : List (List EventBlock)) : Mutation → List (List EventBlock)
  | Mutation.create r a b title =>
    -- handleMouseUp: push only when the prompt returned a non-blank title
    if trimStr title ≠ "" then
      rows.set r ((rows.getD r []) ++ [⟨min a b, max a b, trimStr title⟩])
    else rows
  | Mutation.moveTo r idx initS initE anchor slot =>
    let row := rows.getD r []
    let len := initE - initS
    let ns0 := initS + (slot - anchor)
    let ne0 := ns0 + len
    -- clamp to bounds first: shift right by the deficit, then left by the overshoot
    let p1 := if ns0 < 0 then ((0 : Int), ne0 - ns0) else (ns0, ne0)
    let p2 :=
      if p1.2 > TOTAL_SLOTS - 1 then (p1.1 - (p1.2 - (TOTAL_SLOTS - 1)), TOTAL_SLOTS - 1)
      else p1
    let allowed := resolveRange row (some idx) p2.1 p2.2
    rows.set r (rowUpdate row idx allowed.1 allowed.2)
  | Mutation.resizeL r idx initE slot =>
    let row := rows.getD r []
    let allowed := resolveRange row (some idx) (min slot initE) initE
    rows.set r (rowUpdate row idx allowed.1 allowed.2)
  | Mutation.resizeR r idx initS slot =>
    let row := rows.getD r []
    let allowed := resolveRange row (some idx) initS (max slot initS)
    rows.set r (rowUpdate row idx allowed.1 allowed.2)

/-- The two intervals overlap: `A.start ≤ B.end AND B.start ≤ A.end`. -/
def Overlaps (a b : EventBlock) : Prop :=
  a.start ≤ b.endSlot ∧ b.start ≤ a.endSlot

instance : DecidableRel Overlaps := fun a b =>
  inferInstanceAs (Decidable (a.start ≤ b.endSlot ∧ b.start ≤ a.endSlot))

/-- Row invariant of the spec: no two distinct intervals of a row overlap. -/
def RowNoOverlap (row : List EventBlock) : Prop :=
  row.Pairwise (fun a b => ¬ Overlaps a b)

instance (row : List EventBlock) : Decidable (RowNoOverlap row) :=
  inferInstanceAs (Decidable (row.Pairwise _))

/-- Bounds invariant of the spec: `0 ≤ start ≤ end < TOTAL_SLOTS`. -/
def InBounds (ev : EventBlock) : Prop :=
  0 ≤ ev.start ∧ ev.start ≤ ev.endSlot ∧ ev.endSlot < TOTAL_SLOTS

instance (ev : EventBlock) : Decidable (InBounds ev) :=
  inferInstanceAs (Decidable (_ ∧ _ ∧ _))

/-- All intervals of all rows are within bounds. -/
def RowsInBounds (rows : List (List EventBlock)) : Prop :=
  ∀ row ∈ rows, ∀ ev ∈ row, InBounds ev

instance (rows : List (List EventBlock)) : Decidable (RowsInBounds rows) :=
  inferInstanceAs (Decidable (∀ row ∈ rows, ∀ ev ∈ row, InBounds ev))

/-- Slot indices delivered by grid cells lie in `[0, TOTAL_SLOTS)`; for a
`create` commit both recorded selection slots are such indices.  The
move/resize write-backs need no precondition: `allowedRangeFor` clamps. -/
def MutOk : Mutation → Prop
  | Mutation.create _ a b _ =>
    0 ≤ a ∧ a ≤ TOTAL_SLOTS - 1 ∧ 0 ≤ b ∧ b ≤ TOTAL_SLOTS - 1
  | _ => True

instance (m : Mutation) : Decidable (MutOk m) := by
  cases m with
  | create r a b t => exact inferInstanceAs (Decidable (_ ∧ _ ∧ _ ∧ _))
  | moveTo r idx a b c d => exact inferInstanceAs (Decidable True)
  | resizeL r idx a b => exact inferInstanceAs (Decidable True)
  | resizeR r idx a b => exact inferInstanceAs (Decidable True)

/-! ### Helper lemmas -/

theorem TOTAL_SLOTS_eq : TOTAL_SLOTS = 44 := by decide

theorem clamp_nonneg (v : Int) : 0 ≤ clamp v 0 (TOTAL_SLOTS - 1) :=
  le_max_left _ _

theorem clamp_le (v : Int) : clamp v 0 (TOTAL_SLOTS - 1) ≤ TOTAL_SLOTS - 1 :=
  max_le (by decide) (min_le_left _ _)

theorem clamp_id {v : Int} (h0 : 0 ≤ v) (h1 : v ≤ TOTAL_SLOTS - 1) :
    clamp v 0 (TOTAL_SLOTS - 1) = v := by
  unfold clamp
  rw [min_eq_right h1, max_eq_right h0]

theorem finalizePair_bounds (p : Int × Int) :
    0 ≤ (finalizePair p).1 ∧ (finalizePair p).1 ≤ (finalizePair p).2 ∧
      (finalizePair p).2 ≤ TOTAL_SLOTS - 1 := by
  unfold finalizePair
  dsimp only
  split_ifs with h
  · exact ⟨clamp_nonneg _, le_refl _, clamp_le _⟩
  · exact ⟨clamp_nonneg _, not_lt.mp h, clamp_le _⟩

theorem resolveRange_bounds (row : List EventBlock) (ex : Option Nat) (s e : Int) :
    0 ≤ (resolveRange row ex s e).1 ∧
      (resolveRange row ex s e).1 ≤ (resolveRange row ex s e).2 ∧
      (resolveRange row ex s e).2 ≤ TOTAL_SLOTS - 1 := by
  unfold resolveRange allowedRangeFor
  exact finalizePair_bounds _

theorem finalizePair_id {p : Int × Int} (h0 : 0 ≤ p.1) (hse : p.1 ≤ p.2)
    (h1 : p.2 ≤ TOTAL_SLOTS - 1) : finalizePair p = p := by
  unfold finalizePair
  dsimp only
  rw [clamp_id h0 (le_trans hse h1), clamp_id (le_trans h0 hse) h1,
    if_neg (not_lt.mpr hse)]

theorem normalizePair_id {s e : Int} (h0 : 0 ≤ s) (hse : s ≤ e)
    (h1 : e ≤ TOTAL_SLOTS - 1) : normalizePair s e = (s, e) := by
  unfold normalizePair
  dsimp only
  rw [clamp_id h0 (le_trans hse h1), clamp_id (le_trans h0 hse) h1,
    if_neg (not_lt.mpr hse)]

theorem snapOne_of_not_overlap {p : Int × Int} {o : EventBlock}
    (h : rangeOverlaps p.1 p.2 o.start o.endSlot = false) : snapOne p o = p := by
  unfold snapOne
  rw [h]
  rfl

theorem foldl_snapOne_id {p : Int × Int} :
    ∀ {l : List EventBlock}, (∀ o ∈ l, snapOne p o = p) → l.foldl snapOne p = p
  | [], _ => rfl
  | o :: rest, h => by
    rw [List.foldl_cons, h o (List.mem_cons_self _ _)]
    exact foldl_snapOne_id fun o' ho' => h o' (List.mem_cons_of_mem _ ho')

theorem mem_of_filterExclude {ex : Option Nat} {o : EventBlock} :
    ∀ {i : Nat} {l : List EventBlock}, o ∈ filterExclude ex i l → o ∈ l := by
  intro i l
  induction l generalizing i with
  | nil => intro h; exact absurd h (List.not_mem_nil o)
  | cons a rest ih =>
    intro h
    unfold filterExclude at h
    split at h
    · exact List.mem_cons_of_mem _ (ih h)
    · rcases List.mem_cons.mp h with h | h
      · exact h ▸ List.mem_cons_self _ _
      · exact List.mem_cons_of_mem _ (ih h)

theorem mem_of_mem_othersOf {row : List EventBlock} {ex : Option Nat}
    {o : EventBlock} (h : o ∈ othersOf row ex) : o ∈ row :=
  mem_of_filterExclude h

theorem overlaps_symm : Symmetric (fun a b : EventBlock => ¬ Overlaps a b) :=
  fun _ _ h hov => h ⟨hov.2, hov.1⟩

theorem isValidEventBlock_of_inBounds {ev : EventBlock} (h : InBounds ev) :
    isValidEventBlock ev = true := by
  obtain ⟨h0, hse, h1⟩ := h
  have h43 : ev.endSlot ≤ TOTAL_SLOTS - 1 := by omega
  unfold isValidEventBlock
  rw [if_neg, if_neg]
  · simpa using h43
  · simp only [Bool.or_eq_true, decide_eq_true_eq, not_or, not_lt]
    exact ⟨⟨h0, le_trans h0 hse⟩, hse⟩

theorem pairsOk_of_sorted :
    ∀ l : List EventBlock, List.Sorted leStart l →
      l.Pairwise (fun a b => ¬ Overlaps a b) →
      (∀ ev ∈ l, ev.start ≤ ev.endSlot) → pairsOk l = true
  | [], _, _, _ => rfl
  | [_], _, _, _ => rfl
  | a :: b :: rest, hs, hp, hbnd => by
    have hab : a.start ≤ b.start :=
      (List.sorted_cons.mp hs).1 b (List.mem_cons_self _ _)
    have hno : ¬ Overlaps a b :=
      (List.pairwise_cons.mp hp).1 b (List.mem_cons_self _ _)
    have hbb : b.start ≤ b.endSlot :=
      hbnd b (List.mem_cons_of_mem _ (List.mem_cons_self _ _))
    have hlt : a.endSlot < b.start := by
      by_contra hcon
      push_neg at hcon
      exact hno ⟨le_trans hab hbb, hcon⟩
    have hadj : adjOk a b = true := by
      unfold adjOk
      rw [if_neg (not_le.mpr hlt)]
    rw [show pairsOk (a :: b :: rest) = (adjOk a b && pairsOk (b :: rest)) from rfl,
      hadj, Bool.true_and]
    exact pairsOk_of_sorted (b :: rest) (List.sorted_cons.mp hs).2
      (List.pairwise_cons.mp hp).2
      fun ev hev => hbnd ev (List.mem_cons_of_mem _ hev)

theorem validateRows_of_invariants {rows : List (List EventBlock)}
    (hlen : rows.length = ROWS)
    (hb : ∀ row ∈ rows, ∀ ev ∈ row, InBounds ev)
    (hnov : ∀ row ∈ rows, RowNoOverlap row) : validateRows rows = true := by
  unfold validateRows
  simp only [Bool.and_eq_true, beq_iff_eq, List.all_eq_true]
  refine ⟨⟨hlen, fun row hrow => ?_⟩, fun row hrow => ?_⟩
  · exact fun ev hev => isValidEventBlock_of_inBounds (hb row hrow ev hev)
  · have hperm : List.Perm (sortByStart row) row := List.perm_insertionSort leStart row
    have hsorted : List.Sorted leStart (sortByStart row) :=
      List.sorted_insertionSort leStart row
    have hpw : List.Pairwise (fun a b => ¬ Overlaps a b) (sortByStart row) :=
      (hperm.pairwise_iff (fun h => overlaps_symm h)).mpr (hnov row hrow)
    exact pairsOk_of_sorted _ hsorted hpw
      (fun ev hev => (hb row hrow ev (hperm.mem_iff.mp hev)).2.1)

theorem rowsSet_inBounds {rows : List (List EventBlock)} {r : Nat}
    {newRow : List EventBlock} (hrows : RowsInBounds rows)
    (hnew : ∀ ev ∈ newRow, InBounds ev) : RowsInBounds (rows.set r newRow) := by
  intro row hrow ev hev
  rcases List.mem_or_eq_of_mem_set hrow with h | h
  · exact hrows row h ev hev
  · exact hnew ev (h ▸ hev)

theorem getD_inBounds {rows : List (List EventBlock)} (hrows : RowsInBounds rows)
    (r : Nat) : ∀ ev ∈ rows.getD r [], InBounds ev := by
  rw [List.getD_eq_get?]
  cases hg : rows.get? r with
  | none => intro ev hev; exact absurd hev (List.not_mem_nil ev)
  | some row => exact fun ev hev => hrows row (List.get?_mem hg) ev hev

theorem rowUpdate_inBounds {row : List EventBlock} {idx : Nat} {s e : Int}
    (hrow : ∀ ev ∈ row, InBounds ev) (h0 : 0 ≤ s) (hse : s ≤ e)
    (h1 : e ≤ TOTAL_SLOTS - 1) : ∀ ev ∈ rowUpdate row idx s e, InBounds ev := by
  unfold rowUpdate
  cases hg : row.get? idx with
  | none => exact hrow
  | some original =>
    intro ev hev
    rcases List.mem_or_eq_of_mem_set hev with h | h
    · exact hrow ev h
    · rw [h]
      exact ⟨h0, hse, show e < TOTAL_SLOTS by omega⟩

/-! ### Claim theorems -/

/-- C1.  The non-overlap invariant is NOT maintained by the code: the
new-event creation commit (`handleMouseUp`, lines 171-195) pushes the raw
selection range into the row without any collision resolution.  Starting
a selection on the empty slot 0 of a row containing `{3,7}`, extending it
to slot 5 (`onMouseEnterCell` tracks `selectCurrent` with no occupancy
check) and releasing with title "B" commits `{0,5}`, which overlaps the
existing `{3,7}` — contradicting the invariant that `validateRows`
enforces on the very same data at load time. -/
theorem create_commit_violates_nonoverlap :
    applyMutation [[⟨3, 7, "A"⟩], [], []] (Mutation.create 0 0 5 "B")
      = [[⟨3, 7, "A"⟩, ⟨0, 5, "B"⟩], [], []]
    ∧ ¬ RowNoOverlap [⟨3, 7, "A"⟩, ⟨0, 5, "B"⟩] := by
  constructor
  · rfl
  · decide

/-- C5.  `loadFromStorage` rejects a payload with `version = 2`, a payload
containing an interval with `start = 5, end = 3`, and a payload with the
touching intervals `{0,5}` and `{5,8}` in one row; in each case the import
path leaves the current rows untouched. -/
theorem deserialize_rejects (cur : List (List EventBlock)) :
    loadFromStorage (some ⟨2, "2024-01-01", [[], [], []]⟩) = none
    ∧ importRows cur ⟨2, "2024-01-01", [[], [], []]⟩ = cur
    ∧ loadFromStorage (some ⟨1, "2024-01-01", [[⟨5, 3, "x"⟩], [], []]⟩) = none
    ∧ importRows cur ⟨1, "2024-01-01", [[⟨5, 3, "x"⟩], [], []]⟩ = cur
    ∧ loadFromStorage (some ⟨1, "2024-01-01", [[⟨0, 5, "a"⟩, ⟨5, 8, "b"⟩], [], []]⟩) = none
    ∧ importRows cur ⟨1, "2024-01-01", [[⟨0, 5, "a"⟩, ⟨5, 8, "b"⟩], [], []]⟩ = cur := by
  refine ⟨by decide, by unfold importRows; rfl, by decide,
    by unfold importRows; rfl, by decide, by unfold importRows; rfl⟩

/-- C8.  Collision snap: in a row with `{10,15}` and `{20,25}`, a
resize-right pointer-enter at slot 22 on the first interval commits
`end = 19` (the neighbor's start minus one) while `start` stays 10. -/
theorem resize_right_collision_snap :
    applyMutation [[⟨10, 15, "A"⟩, ⟨20, 25, "B"⟩], [], []] (Mutation.resizeR 0 0 10 22)
      = [[⟨10, 19, "A"⟩, ⟨20, 25, "B"⟩], [], []] := by
  rfl

/-- C3 counterexample.  The collision resolver is not idempotent: on the
(legal, back-to-back) row `[{6,10}, {5,5}]` with no excluded index, the
proposal `(6,8)` resolves to `(5,5)`, but resolving `(5,5)` again against
the same row yields `(4,4)`. -/
theorem resolve_not_idempotent :
    resolveRange [⟨6, 10, "B"⟩, ⟨5, 5, "A"⟩] none
        (resolveRange [⟨6, 10, "B"⟩, ⟨5, 5, "A"⟩] none 6 8).1
        (resolveRange [⟨6, 10, "B"⟩, ⟨5, 5, "A"⟩] none 6 8).2
      ≠ resolveRange [⟨6, 10, "B"⟩, ⟨5, 5, "A"⟩] none 6 8 := by
  decide

/-- C6 counterexample.  `validateRows` never inspects titles: a row whose
only interval has a whitespace-only title still validates. -/
theorem validateRows_accepts_blank_title :
    validateRows [[⟨0, 1, "  "⟩], [], []] = true
    ∧ trimStr (EventBlock.title ⟨0, 1, "  "⟩) = "" := by
  constructor
  · decide
  · rfl

/-- C7 counterexample.  With the row `[{2,6}]`, pointer-down at slot 4
(moving, anchor 4, snapshot `(2,6)`) and pointer-enter at slot 40, the
code commits `{38,42}` (offset 36, no boundary clamp is needed), not the
`{39,43}` the claim states. -/
theorem move_enter_40_not_39_43 :
    applyMutation [[⟨2, 6, "E"⟩], [], []] (Mutation.moveTo 0 0 2 6 4 40)
      ≠ [[⟨39, 43, "E"⟩], [], []] := by
  decide

/-- C7 amended.  Pointer-enter at slot 40 commits `{38,42}`: length is
preserved and the translated interval already fits in `[0, 43]`, so no
shift occurs.  (The boundary clamp does fire one drag further: a
pointer-enter at slot 42 commits `{39,43}`, the whole interval shifted
left to fit.) -/
theorem move_clamp_scenario :
    applyMutation [[⟨2, 6, "E"⟩], [], []] (Mutation.moveTo 0 0 2 6 4 40)
      = [[⟨38, 42, "E"⟩], [], []]
    ∧ applyMutation [[⟨2, 6, "E"⟩], [], []] (Mutation.moveTo 0 0 2 6 4 42)
      = [[⟨39, 43, "E"⟩], [], []] := by
  constructor
  · rfl
  · rfl

/-- C10 counterexample.  The claim fails when the row holds a second
interval besides `O`: in the row `[{0,10}, {3,4}]` the proposal `(3,4)`
is normalized and strictly inside `O = {0,10}`, yet the resolver snaps
against the second interval and returns `(2,2)`, not `(3,4)` unchanged. -/
theorem inside_not_always_unchanged :
    (EventBlock.start ⟨0, 10, "O"⟩ < 3 ∧ 4 < EventBlock.endSlot ⟨0, 10, "O"⟩)
    ∧ resolveRange [⟨0, 10, "O"⟩, ⟨3, 4, "P"⟩] none 3 4 ≠ (3, 4) := by
  decide

/-- C2.  Bounds invariant: every committed mutation — new-event creation
on pointer-up, or a move / resize-left / resize-right write-back on
pointer-enter — preserves `0 ≤ start ≤ end < TOTAL_SLOTS` for every
interval of every row, given that the creation slots are grid slot
indices (move/resize need no precondition: `allowedRangeFor` clamps and
collapses its output into bounds unconditionally). -/
theorem mutation_preserves_bounds (rows : List (List EventBlock)) (m : Mutation)
    (hrows : RowsInBounds rows) (hm : MutOk m) :
    RowsInBounds (applyMutation rows m) := by
  cases m with
  | create r a b title =>
    obtain ⟨h0a, h1a, h0b, h1b⟩ := hm
    show RowsInBounds (if trimStr title ≠ "" then
      rows.set r ((rows.getD r []) ++ [⟨min a b, max a b, trimStr title⟩]) else rows)
    split_ifs with ht
    · refine rowsSet_inBounds hrows ?_
      intro ev hev
      rcases List.mem_append.mp hev with h | h
      · exact getD_inBounds hrows r ev h
      · rcases List.mem_singleton.mp h with rfl
        refine ⟨le_min h0a h0b, le_trans (min_le_left _ _) (le_max_left _ _),
          show max a b < TOTAL_SLOTS from ?_⟩
        have := max_le h1a h1b
        omega
    · exact hrows
  | moveTo r idx initS initE anchor slot =>
    refine rowsSet_inBounds hrows
      (rowUpdate_inBounds (getD_inBounds hrows r)
        (resolveRange_bounds _ _ _ _).1 (resolveRange_bounds _ _ _ _).2.1
        (resolveRange_bounds _ _ _ _).2.2)
  | resizeL r idx initE slot =>
    have hb := resolveRange_bounds (rows.getD r []) (some idx) (min slot initE) initE
    exact rowsSet_inBounds hrows
      (rowUpdate_inBounds (getD_inBounds hrows r) hb.1 hb.2.1 hb.2.2)
  | resizeR r idx initS slot =>
    have hb := resolveRange_bounds (rows.getD r []) (some idx) initS (max slot initS)
    exact rowsSet_inBounds hrows
      (rowUpdate_inBounds (getD_inBounds hrows r) hb.1 hb.2.1 hb.2.2)

theorem mutation_preserves_bounds_witness :
    RowsInBounds (applyMutation [[], [], []] (Mutation.create 0 4 9 "Standup")) :=
  mutation_preserves_bounds [[], [], []] (Mutation.create 0 4 9 "Standup")
    (by decide) (by decide)

/-- C3 amended.  The resolver is idempotent whenever its first result is
free of overlap with every non-excluded interval of the row (in
particular whenever no obstruction exists): resolving the returned range
again with the same row and exclude index returns it unchanged.
(Unrestricted idempotence fails — see the counterexample, where the first
result still overlaps a point interval.) -/
theorem resolve_idempotent_of_free (row : List EventBlock) (ex : Option Nat)
    (s e s' e' : Int) (h : resolveRange row ex s e = (s', e'))
    (hfree : ∀ o ∈ othersOf row ex, rangeOverlaps s' e' o.start o.endSlot = false) :
    resolveRange row ex s' e' = (s', e') := by
  have hb := resolveRange_bounds row ex s e
  rw [h] at hb
  unfold resolveRange allowedRangeFor
  rw [normalizePair_id hb.1 hb.2.1 hb.2.2,
    foldl_snapOne_id (fun o ho => snapOne_of_not_overlap (hfree o ho))]
  exact finalizePair_id hb.1 hb.2.1 hb.2.2

theorem resolve_idempotent_of_free_witness :
    resolveRange [⟨6, 10, "B"⟩] none 0 3 = (0, 3) :=
  resolve_idempotent_of_free [⟨6, 10, "B"⟩] none (-2) 3 0 3 (by decide) (by decide)

/-- C4.  Round-trip: for rows satisfying the Row invariants (row count
equals `ROWS`, every interval within bounds with a non-blank trimmed
title, no two distinct intervals of a row overlapping), deserializing the
serialized payload succeeds and returns exactly the same rows.
(`validateRows` never reads titles, so the title invariant is simply
unused by the check.) -/
theorem deserialize_serialize_roundtrip (rows : List (List EventBlock)) (t : String)
    (hlen : rows.length = ROWS)
    (hb : ∀ row ∈ rows, ∀ ev ∈ row, InBounds ev)
    (_ht : ∀ row ∈ rows, ∀ ev ∈ row, trimStr ev.title ≠ "")
    (hnov : ∀ row ∈ rows, RowNoOverlap row) :
    loadFromStorage (some (makeSchedule t rows))
      = some { version := 1, savedAt := t, rows := rows }
    ∧ Option.map ScheduleV1.rows (loadFromStorage (some (makeSchedule t rows)))
      = some rows := by
  have hval : validateRows rows = true := validateRows_of_invariants hlen hb hnov
  have h1 : loadFromStorage (some (makeSchedule t rows))
      = some { version := 1, savedAt := t, rows := rows } := by
    unfold loadFromStorage makeSchedule
    simp [hval]
  exact ⟨h1, by rw [h1]; rfl⟩

theorem deserialize_serialize_roundtrip_witness :
    loadFromStorage (some (makeSchedule "2024-01-01" [[⟨0, 5, "a"⟩, ⟨6, 8, "b"⟩], [], []]))
      = some { version := 1, savedAt := "2024-01-01",
               rows := [[⟨0, 5, "a"⟩, ⟨6, 8, "b"⟩], [], []] }
    ∧ Option.map ScheduleV1.rows
        (loadFromStorage (some (makeSchedule "2024-01-01" [[⟨0, 5, "a"⟩, ⟨6, 8, "b"⟩], [], []])))
      = some [[⟨0, 5, "a"⟩, ⟨6, 8, "b"⟩], [], []] :=
  deserialize_serialize_roundtrip [[⟨0, 5, "a"⟩, ⟨6, 8, "b"⟩], [], []] "2024-01-01"
    (by decide) (by decide) (by decide) (by decide)

/-- C6 amended.  `validateRows` returns `true` only if the row count
equals `ROWS` and every interval satisfies the numeric invariants
`0 ≤ start ≤ end < TOTAL_SLOTS`; it does not inspect titles at all, so
candidate rows containing an empty or whitespace-only title are NOT
rejected (see the counterexample). -/
theorem validateRows_implies_bounds (rows : List (List EventBlock))
    (h : validateRows rows = true) :
    rows.length = ROWS ∧ RowsInBounds rows := by
  unfold validateRows at h
  simp only [Bool.and_eq_true, beq_iff_eq, List.all_eq_true] at h
  obtain ⟨⟨hlen, hall⟩, -⟩ := h
  refine ⟨hlen, fun row hrow ev hev => ?_⟩
  have hv := hall row hrow ev hev
  unfold isValidEventBlock at hv
  split_ifs at hv with h1 h2
  simp only [Bool.or_eq_true, decide_eq_true_eq, not_or, not_lt] at h1
  show 0 ≤ ev.start ∧ ev.start ≤ ev.endSlot ∧ ev.endSlot < TOTAL_SLOTS
  omega

theorem validateRows_implies_bounds_witness :
    ([[⟨1, 2, " "⟩], [], []] : List (List EventBlock)).length = ROWS
    ∧ RowsInBounds [[⟨1, 2, " "⟩], [], []] :=
  validateRows_implies_bounds [[⟨1, 2, " "⟩], [], []] (by decide)

/-- C9.  Pointer-down classification on an occupied slot: a single-point
interval, or a hit strictly between the interval's first and last slot,
enters `move`; a hit on the first slot of a multi-slot interval enters
`resize-left`; a hit on its last slot enters `resize-right`; and the
recorded drag state carries the interval's pre-drag `(start, end)` and
the anchor slot. -/
theorem mousedown_classifies (row : List EventBlock) (rowIdx : Nat) (slotIdx : Int)
    (i : Nat) (evt : EventBlock) (hfind : findEventAt row slotIdx = some i)
    (hget : row.get? i = some evt) :
    onMouseDownDrag row rowIdx slotIdx
      = some { mode := classifyDrag evt slotIdx, row := some rowIdx,
               eventIndex := some i, anchorSlot := some slotIdx,
               initialStart := some evt.start, initialEnd := some evt.endSlot }
    ∧ (evt.start = evt.endSlot → classifyDrag evt slotIdx = DragMode.move)
    ∧ (evt.start < slotIdx ∧ slotIdx < evt.endSlot →
        classifyDrag evt slotIdx = DragMode.move)
    ∧ (evt.start < evt.endSlot ∧ slotIdx = evt.start →
        classifyDrag evt slotIdx = DragMode.resizeLeft)
    ∧ (evt.start < evt.endSlot ∧ slotIdx = evt.endSlot →
        classifyDrag evt slotIdx = DragMode.resizeRight) := by
  refine ⟨?_, ?_, ?_, ?_, ?_⟩
  · unfold onMouseDownDrag
    rw [hfind]
    dsimp only
    rw [hget]
  · intro h
    unfold classifyDrag
    rw [if_pos (by simpa using h)]
  · rintro ⟨h1, h2⟩
    unfold classifyDrag
    rw [if_neg (by simp; omega), if_neg (by simp; omega), if_neg (by simp; omega)]
  · rintro ⟨h1, h2⟩
    unfold classifyDrag
    rw [if_neg (by simp; omega), if_pos (by simpa using h2)]
  · rintro ⟨h1, h2⟩
    unfold classifyDrag
    rw [if_neg (by simp; omega), if_neg (by simp; omega), if_pos (by simpa using h2)]

theorem mousedown_classifies_witness :
    onMouseDownDrag [⟨2, 6, "E"⟩] 0 4
      = some { mode := DragMode.move, row := some 0, eventIndex := some 0,
               anchorSlot := some 4, initialStart := some 2, initialEnd := some 6 }
    ∧ classifyDrag ⟨2, 6, "E"⟩ 4 = DragMode.move := by
  have h := mousedown_classifies [⟨2, 6, "E"⟩] 0 4 0 ⟨2, 6, "E"⟩ (by decide) (by decide)
  exact ⟨h.1, h.2.2.1 (by decide)⟩

/-- C10 amended.  For a row whose intervals are pairwise non-overlapping
(the externally guaranteed row invariant), if the proposal `(s, e)` is
already normalized (`0 ≤ s ≤ e ≤ TOTAL_SLOTS - 1`) and lies strictly
inside a non-excluded interval `O` (`O.start < s` and `e < O.endSlot`),
the resolver returns `(s, e)` unchanged — neither edge is snapped — and
the returned range still overlaps `O`.  (For rows with overlapping
intervals the claim fails: see the counterexample.) -/
theorem resolve_inside_unchanged (row : List EventBlock) (ex : Option Nat)
    (O : EventBlock) (s e : Int) (hpw : RowNoOverlap row)
    (hO : O ∈ othersOf row ex) (h0 : 0 ≤ s) (hse : s ≤ e)
    (h43 : e ≤ TOTAL_SLOTS - 1) (hin1 : O.start < s) (hin2 : e < O.endSlot) :
    resolveRange row ex s e = (s, e) ∧ s ≤ O.endSlot ∧ O.start ≤ e := by
  have hfix : ∀ o ∈ othersOf row ex, snapOne (s, e) o = (s, e) := by
    intro o ho
    by_cases hov : rangeOverlaps s e o.start o.endSlot = true
    · have hovp : s ≤ o.endSlot ∧ o.start ≤ e := by
        simpa [rangeOverlaps] using hov
      by_cases heq : o = O
      · subst heq
        unfold snapOne
        rw [if_pos hov, if_neg, if_neg]
        · exact fun hc => absurd hc.2 (not_le.mpr hin2)
        · exact fun hc => absurd hc.2 (not_le.mpr hin1)
      · exfalso
        have hoO : Overlaps o O :=
          ⟨le_trans hovp.2 (le_of_lt hin2), le_trans (le_of_lt hin1) hovp.1⟩
        exact (hpw.forall overlaps_symm
          (mem_of_mem_othersOf ho) (mem_of_mem_othersOf hO) heq) hoO
    · exact snapOne_of_not_overlap (Bool.not_eq_true _ ▸ hov)
  refine ⟨?_, le_trans hse (le_of_lt hin2), le_trans (le_of_lt hin1) hse⟩
  unfold resolveRange allowedRangeFor
  rw [normalizePair_id h0 hse h43, foldl_snapOne_id hfix]
  exact finalizePair_id h0 hse h43

theorem resolve_inside_unchanged_witness :
    resolveRange [⟨0, 10, "O"⟩] none 3 4 = (3, 4)
    ∧ (3 : Int) ≤ EventBlock.endSlot ⟨0, 10, "O"⟩
    ∧ EventBlock.start ⟨0, 10, "O"⟩ ≤ (4 : Int) :=
  resolve_inside_unchanged [⟨0, 10, "O"⟩] none ⟨0, 10, "O"⟩ 3 4
    (by decide) (by decide) (by decide) (by decide) (by decide) (by decide) (by decide)

end Scheduler
